import Mathlib

/-!
Verification development for the onemcp tool aggregator.

The development shallowly embeds the tool catalog (registry), the execution
dispatcher, the in-memory vector store with cosine-similarity ranking, the
TF-IDF embedder, and the tool-search pagination handler, and proves the
specified properties about them.

Modelling conventions:
* Go strings are lists of characters (GoStr), so concatenation and
  dropping act structurally.
* Go maps keyed by strings are total functions into Option.
* Go map iteration order is not deterministic; where the code iterates a map
  to build an ordered artifact (the TF-IDF vocabulary), the model takes the
  enumeration order as an explicit parameter constrained to be a permutation
  of the key set.
* A Go function returning (T, error) is modelled as Except with the error
  text; a nil error corresponds to Except.ok.
* float32 arithmetic is idealised as exact ordered-field arithmetic; square
  roots are an explicit function parameter so that claims can be read over
  the real numbers with the real square root.
* Wall-clock execution times are omitted: no claim mentions them.
* The standard library sort used by Search (sort.Slice) is modelled by its
  documented contract: the output is a permutation of the input that is
  sorted with respect to the comparison function. The library explicitly
  does not guarantee stability, so the sorting routine is a parameter
  constrained only by that contract.
-/

set_option maxHeartbeats 1000000
set_option maxRecDepth 4000

namespace OneMcp

/-- Go strings, modelled as lists of characters. -/
abbrev GoStr := List Char

/-- Embed a Lean string literal as a Go string value. -/
def gs (s : String) : GoStr := s.toList

/-- Model of strings.TrimPrefix from the Go standard library: remove the
leading prefix when present, otherwise return the string unchanged. -/
def goTrimHead (s pre : GoStr) : GoStr :=
  if pre.isPrefixOf s then s.drop pre.length else s

/-- JSON-like dynamic values standing in for Go interface values
(map[string]any, strings, numbers, ...). -/
inductive JVal : Type where
  | null : JVal
  | str : GoStr → JVal
  | num : Int → JVal
  | bool : Bool → JVal
  | arr : List JVal → JVal
  | obj : List (GoStr × JVal) → JVal

/-- Argument maps passed to tools (map[string]any in the source). -/
abbrev Args := List (GoStr × JVal)

/-- Result maps produced by tools (map[string]any in the source). -/
abbrev ResMap := List (GoStr × JVal)

/-- The "internal" tool source constant. -/
def internalSrc : GoStr := gs ("internal")

/-- The "external" tool source constant. -/
def externalSrc : GoStr := gs ("external")

/-- A tool record: name, category, description, input schema, optional
handler, source kind and external source-server name
(internal/tools/types.go, struct Tool). -/
structure Tool : Type where
  name : GoStr
  category : GoStr
  description : GoStr
  inputSchema : Option JVal
  handler : Option (Args → Except GoStr ResMap)
  source : GoStr
  sourceName : GoStr

/-- An external tool executor: CallTool(toolName, arguments) returning a
dynamic result or an error (interface ExternalToolExecutor). -/
abbrev Executor := GoStr → Args → Except GoStr JVal

/-- The tool registry: the name-to-tool map and the source-name-to-executor
map (internal/tools/registry.go, struct Registry). -/
structure Registry : Type where
  tools : GoStr → Option Tool
  externalExecutors : GoStr → Option Executor

/-- The empty registry produced by NewRegistry. -/
def Registry.new : Registry :=
  { tools := fun _ => none, externalExecutors := fun _ => none }

/-- Registration error kinds. The source returns distinct formatted error
strings; the spec names the kinds InvalidTool, MissingHandler and
DuplicateName, and this model keeps them as a small enumeration. -/
inductive RegErr : Type where
  | invalidTool : RegErr
  | missingHandler : RegErr
  | duplicateName : RegErr
deriving DecidableEq

/-- Registry.Register: reject an empty name, reject an internal tool without
a handler, reject a duplicate name, otherwise insert into the name map
(registry.go, Register). -/
def Registry.Register (r : Registry) (tool : Tool) : Except RegErr Registry :=
  if tool.name = [] then .error .invalidTool
  else if tool.source = internalSrc ∧ tool.handler.isNone then .error .missingHandler
  else if (r.tools tool.name).isSome then .error .duplicateName
  else .ok { r with tools := fun n => if n = tool.name then some tool else r.tools n }

/-- Registry.Get: look a tool up by name; absent names produce the
"tool not found" error (registry.go, Get). -/
def Registry.Get (r : Registry) (name : GoStr) : Except GoStr Tool :=
  match r.tools name with
  | some tool => .ok tool
  | none => .error (gs ("tool not found: ") ++ name)

/-- Registry.RegisterExternalExecutor: associate an executor with a source
name, last write wins (registry.go). -/
def Registry.RegisterExternalExecutor (r : Registry) (sourceName : GoStr)
    (ex : Executor) : Registry :=
  { r with externalExecutors :=
      fun n => if n = sourceName then some ex else r.externalExecutors n }

/-- Registry.RegisterExternalTool: compose the prefixed name
sourceName ++ "_" ++ toolName, build an external tool without a handler and
register it (registry.go, RegisterExternalTool). -/
def Registry.RegisterExternalTool (r : Registry)
    (sourceName category toolName description : GoStr)
    (inputSchema : Option JVal) : Except RegErr Registry :=
  r.Register
    { name := sourceName ++ gs ("_") ++ toolName
      category := category
      description := description
      inputSchema := inputSchema
      handler := none
      source := externalSrc
      sourceName := sourceName }

/-- The uniform execution result shape (types.go, ExecutionResult). The
wall-clock ExecutionTimeMs field is omitted from the model. -/
structure ExecutionResult : Type where
  success : Bool
  toolName : GoStr
  result : Option ResMap
  error : GoStr
  errorType : GoStr

/-- Wrapping of an external call result: map-shaped results become the
result payload directly, any other value is wrapped under a single
"result" key (registry.go, Execute, external branch). -/
def wrapExternal (v : JVal) : ResMap :=
  match v with
  | .obj fields => fields
  | v => [(gs ("result"), v)]

/-- Registry.Execute (registry.go, Execute). A Go return of (res, nil) is
Except.ok res. The one abnormal outcome kept distinct is the nil-handler
dereference of an internal tool, which in Go would panic rather than
return; it is modelled as Except.error and is unreachable from registries
built through Register. -/
def Registry.Execute (r : Registry) (toolName : GoStr) (params : Args) :
    Except GoStr ExecutionResult :=
  match r.Get toolName with
  | .error e =>
      .ok { success := false, toolName := toolName, result := none,
            error := e, errorType := gs ("tool_not_found") }
  | .ok tool =>
    if tool.source = internalSrc then
      match tool.handler with
      | none => .error (gs ("panic: nil handler"))
      | some h =>
        match h params with
        | .error e =>
            .ok { success := false, toolName := toolName, result := none,
                  error := e, errorType := gs ("execution_error") }
        | .ok res =>
            .ok { success := true, toolName := toolName, result := some res,
                  error := [], errorType := [] }
    else if tool.source = externalSrc then
      match r.externalExecutors tool.sourceName with
      | none =>
          .ok { success := false, toolName := toolName, result := none,
                error := gs ("external executor not found: ") ++ tool.sourceName,
                errorType := gs ("executor_not_found") }
      | some ex =>
        match ex (goTrimHead toolName (tool.sourceName ++ gs ("_"))) params with
        | .error e =>
            .ok { success := false, toolName := toolName, result := none,
                  error := e, errorType := gs ("execution_error") }
        | .ok v =>
            .ok { success := true, toolName := toolName,
                  result := some (wrapExternal v), error := [], errorType := [] }
    else
      .ok { success := false, toolName := toolName, result := none,
            error := gs ("unknown tool source: ") ++ tool.source,
            errorType := gs ("execution_error") }

/-- Well-formedness of a registry: stored internal tools carry a handler.
Register enforces this, and it rules out the nil-handler panic. -/
def Registry.WF (r : Registry) : Prop :=
  ∀ name tool, r.tools name = some tool → tool.source = internalSrc →
    tool.handler.isSome

/-- One entry of a batch request (types.go, ToolExecution). -/
structure ToolExecution : Type where
  toolName : GoStr
  params : Args

/-- A batch request (types.go, BatchExecutionRequest). -/
structure BatchExecutionRequest : Type where
  tools : List ToolExecution
  continueOnError : Bool

/-- A batch result; the wall-clock total time is omitted
(types.go, BatchExecutionResult). -/
structure BatchExecutionResult : Type where
  results : List ExecutionResult
  successfulCount : Nat
  failedCount : Nat

/-- The loop body of ExecuteBatch (registry.go, ExecuteBatch): execute each
request in order, append its result and update the counters; on a failed
result stop unless continueOnError is set. An abnormal Execute outcome
aborts the whole batch, mirroring the source's early return of the error. -/
def Registry.execBatchGo (r : Registry) (continueOnError : Bool) :
    List ToolExecution → Except GoStr (List ExecutionResult × Nat × Nat)
  | [] => .ok ([], 0, 0)
  | te :: rest =>
    match r.Execute te.toolName te.params with
    | .error e => .error e
    | .ok res =>
      if res.success then
        match r.execBatchGo continueOnError rest with
        | .error e => .error e
        | .ok (rs, s, f) => .ok (res :: rs, s + 1, f)
      else if continueOnError then
        match r.execBatchGo continueOnError rest with
        | .error e => .error e
        | .ok (rs, s, f) => .ok (res :: rs, s, f + 1)
      else .ok ([res], 0, 1)

/-- Registry.ExecuteBatch (registry.go, ExecuteBatch). -/
def Registry.ExecuteBatch (r : Registry) (request : BatchExecutionRequest) :
    Except GoStr BatchExecutionResult :=
  match r.execBatchGo request.continueOnError request.tools with
  | .error e => .error e
  | .ok (rs, s, f) =>
      .ok { results := rs, successfulCount := s, failedCount := f }

theorem externalSrc_ne_internalSrc : externalSrc ≠ internalSrc := by decide

/-- On a well-formed registry a single execution always returns a normal
result value, never the abnormal channel. -/
theorem execute_isOk (r : Registry) (hWF : r.WF) (name : GoStr) (params : Args) :
    ∃ res, r.Execute name params = .ok res := by
  cases h : r.tools name with
  | none => simp [Registry.Execute, Registry.Get, h]
  | some tool =>
    by_cases hi : tool.source = internalSrc
    · have hh := hWF name tool h hi
      cases hh2 : tool.handler with
      | none => simp [hh2] at hh
      | some fn =>
        cases hf : fn params with
        | error e =>
          simp [Registry.Execute, Registry.Get, h, hi, hh2, hf]
        | ok v =>
          simp [Registry.Execute, Registry.Get, h, hi, hh2, hf]
    · by_cases he : tool.source = externalSrc
      · cases hx : r.externalExecutors tool.sourceName with
        | none =>
          simp [Registry.Execute, Registry.Get, h, hi, he, hx,
            externalSrc_ne_internalSrc]
        | some ex =>
          cases hc : ex (goTrimHead name (tool.sourceName ++ gs ("_"))) params with
          | error e =>
            simp [Registry.Execute, Registry.Get, h, hi, he, hx, hc,
              externalSrc_ne_internalSrc]
          | ok v =>
            simp [Registry.Execute, Registry.Get, h, hi, he, hx, hc,
              externalSrc_ne_internalSrc]
      · simp [Registry.Execute, Registry.Get, h, hi, he]

/-- C1: for every tool name and argument map, Execute on a well-formed
registry never returns through the Go error channel; an unknown name
produces a failed result of kind tool_not_found with a nil payload, an
external tool whose source has no registered executor produces kind
executor_not_found, and a handler or remote-call error produces kind
execution_error carrying the error text — in each case the failure is
encoded in the returned result value. -/
theorem execute_encodes_failures (r : Registry) (hWF : r.WF) (name : GoStr)
    (params : Args) :
    (∃ res, r.Execute name params = .ok res) ∧
    (r.tools name = none →
      r.Execute name params = .ok
        { success := false, toolName := name, result := none,
          error := gs ("tool not found: ") ++ name,
          errorType := gs ("tool_not_found") }) ∧
    (∀ tool, r.tools name = some tool → tool.source = externalSrc →
      r.externalExecutors tool.sourceName = none →
      r.Execute name params = .ok
        { success := false, toolName := name, result := none,
          error := gs ("external executor not found: ") ++ tool.sourceName,
          errorType := gs ("executor_not_found") }) ∧
    (∀ tool fn e, r.tools name = some tool → tool.source = internalSrc →
      tool.handler = some fn → fn params = .error e →
      r.Execute name params = .ok
        { success := false, toolName := name, result := none,
          error := e, errorType := gs ("execution_error") }) ∧
    (∀ tool ex e, r.tools name = some tool → tool.source = externalSrc →
      r.externalExecutors tool.sourceName = some ex →
      ex (goTrimHead name (tool.sourceName ++ gs ("_"))) params = .error e →
      r.Execute name params = .ok
        { success := false, toolName := name, result := none,
          error := e, errorType := gs ("execution_error") }) := by
  refine ⟨execute_isOk r hWF name params, ?_, ?_, ?_, ?_⟩
  · intro h
    simp [Registry.Execute, Registry.Get, h]
  · intro tool h hsrc hx
    simp [Registry.Execute, Registry.Get, h, hsrc, hx, externalSrc_ne_internalSrc]
  · intro tool fn e h hsrc hh hf
    simp [Registry.Execute, Registry.Get, h, hsrc, hh, hf]
  · intro tool ex e h hsrc hx hc
    simp [Registry.Execute, Registry.Get, h, hsrc, hx, hc,
      externalSrc_ne_internalSrc]

/-- Handler of the demonstration internal tool that always fails. -/
def wHandlerBoom : Args → Except GoStr ResMap := fun _ => .error (gs ("kaboom"))

/-- Handler of the demonstration internal tool that always succeeds. -/
def wHandlerGood : Args → Except GoStr ResMap := fun _ => .ok []

/-- Demonstration internal tool that always fails. -/
def wToolBoom : Tool :=
  { name := gs ("boom"), category := gs ("demo"), description := gs ("always fails"),
    inputSchema := none, handler := some wHandlerBoom,
    source := internalSrc, sourceName := [] }

/-- Demonstration internal tool that always succeeds. -/
def wToolGood : Tool :=
  { name := gs ("good"), category := gs ("demo"), description := gs ("always succeeds"),
    inputSchema := none, handler := some wHandlerGood,
    source := internalSrc, sourceName := [] }

/-- Demonstration external tool whose source has no registered executor. -/
def wToolOrphan : Tool :=
  { name := gs ("s1_t"), category := gs ("demo"), description := gs ("orphan"),
    inputSchema := none, handler := none,
    source := externalSrc, sourceName := gs ("s1") }

/-- A small concrete registry used to exercise the dispatcher theorems. -/
def wReg1 : Registry :=
  { tools := fun n =>
      if n = gs ("boom") then some wToolBoom
      else if n = gs ("good") then some wToolGood
      else if n = gs ("s1_t") then some wToolOrphan
      else none,
    externalExecutors := fun _ => none }

theorem wReg1_wf : wReg1.WF := by
  intro n t h hsrc
  simp only [wReg1] at h
  split at h
  · cases h; rfl
  · split at h
    · cases h; rfl
    · split at h
      · cases h; exact absurd hsrc (by decide)
      · exact Option.noConfusion h

theorem execute_encodes_failures_witness :
    wReg1.Execute (gs ("missing")) [] = .ok
      { success := false, toolName := gs ("missing"), result := none,
        error := gs ("tool not found: ") ++ gs ("missing"),
        errorType := gs ("tool_not_found") } ∧
    wReg1.Execute (gs ("boom")) [] = .ok
      { success := false, toolName := gs ("boom"), result := none,
        error := gs ("kaboom"), errorType := gs ("execution_error") } ∧
    wReg1.Execute (gs ("s1_t")) [] = .ok
      { success := false, toolName := gs ("s1_t"), result := none,
        error := gs ("external executor not found: ") ++ gs ("s1"),
        errorType := gs ("executor_not_found") } := by
  refine ⟨?_, ?_, ?_⟩
  · exact (execute_encodes_failures wReg1 wReg1_wf (gs ("missing")) []).2.1 rfl
  · exact (execute_encodes_failures wReg1 wReg1_wf (gs ("boom")) []).2.2.2.1
      wToolBoom wHandlerBoom (gs ("kaboom")) rfl rfl rfl rfl
  · exact (execute_encodes_failures wReg1 wReg1_wf (gs ("s1_t")) []).2.2.1
      wToolOrphan rfl rfl rfl

/-- Full characterisation of the batch loop on a well-formed registry:
normal return, counters matching the produced list, index-wise
correspondence with the submitted requests, full length under
continue-on-error, and early stop right after the first failure. -/
theorem execBatchGo_spec (r : Registry) (hWF : r.WF) (cont : Bool) :
    ∀ l : List ToolExecution, ∃ rs s f,
      r.execBatchGo cont l = .ok (rs, s, f) ∧
      s = rs.countP (fun x => x.success) ∧
      f = rs.countP (fun x => !x.success) ∧
      (∀ i (hi : i < rs.length), ∃ hi2 : i < l.length,
        r.Execute (l.get ⟨i, hi2⟩).toolName (l.get ⟨i, hi2⟩).params
          = .ok (rs.get ⟨i, hi⟩)) ∧
      (cont = true → rs.length = l.length) ∧
      (cont = false → ∀ k (hk : k < l.length),
        (∀ res, r.Execute (l.get ⟨k, hk⟩).toolName (l.get ⟨k, hk⟩).params
          = .ok res → res.success = false) →
        (∀ j (hj : j < k), ∀ res,
          r.Execute (l.get ⟨j, hj.trans hk⟩).toolName
            (l.get ⟨j, hj.trans hk⟩).params = .ok res → res.success = true) →
        rs.length = k + 1) := by
  intro l
  induction l with
  | nil =>
    refine ⟨[], 0, 0, rfl, rfl, rfl, ?_, fun _ => rfl, ?_⟩
    · intro i hi; exact absurd hi (by simp)
    · intro _ k hk; exact absurd hk (by simp)
  | cons te rest ih =>
    obtain ⟨rs, s, f, hrec, hs, hf, hidx, hlen, hstop⟩ := ih
    obtain ⟨res, hres⟩ := execute_isOk r hWF te.toolName te.params
    by_cases hsucc : res.success = true
    · refine ⟨res :: rs, s + 1, f, ?_, ?_, ?_, ?_, ?_, ?_⟩
      · simp [Registry.execBatchGo, hres, hsucc, hrec]
      · simp [List.countP_cons, hsucc, hs]
      · simp [List.countP_cons, hsucc, hf]
      · intro i hi
        match i with
        | 0 => exact ⟨Nat.succ_pos _, hres⟩
        | Nat.succ i =>
          obtain ⟨hi2, hx⟩ := hidx i (Nat.lt_of_succ_lt_succ hi)
          exact ⟨Nat.succ_lt_succ hi2, hx⟩
      · intro hc; simp [hlen hc]
      · intro hc k hk hfail hbefore
        match k, hk with
        | 0, hk =>
          have := hfail res hres
          rw [this] at hsucc; exact absurd hsucc (by simp)
        | Nat.succ k, hk =>
          have hk2 : k < rest.length := Nat.lt_of_succ_lt_succ hk
          have := hstop hc k hk2
            (fun res0 h0 => hfail res0 h0)
            (fun j hj res0 h0 => hbefore (j + 1) (Nat.succ_lt_succ hj) res0 h0)
          simp [this]
    · have hsucc2 : res.success = false := by
        cases hx : res.success with
        | false => rfl
        | true => exact absurd hx hsucc
      cases hcv : cont with
      | true =>
        subst hcv
        refine ⟨res :: rs, s, f + 1, ?_, ?_, ?_, ?_, ?_, ?_⟩
        · simp [Registry.execBatchGo, hres, hsucc2, hrec]
        · simp [List.countP_cons, hsucc2, hs]
        · simp [List.countP_cons, hsucc2, hf]
        · intro i hi
          match i with
          | 0 => exact ⟨Nat.succ_pos _, hres⟩
          | Nat.succ i =>
            obtain ⟨hi2, hx⟩ := hidx i (Nat.lt_of_succ_lt_succ hi)
            exact ⟨Nat.succ_lt_succ hi2, hx⟩
        · intro _; simp [hlen rfl]
        · intro hx; exact absurd hx (by simp)
      | false =>
        subst hcv
        refine ⟨[res], 0, 1, ?_, ?_, ?_, ?_, ?_, ?_⟩
        · simp [Registry.execBatchGo, hres, hsucc2]
        · simp [List.countP_cons, hsucc2]
        · simp [List.countP_cons, hsucc2]
        · intro i hi
          match i, hi with
          | 0, _ => exact ⟨Nat.succ_pos _, hres⟩
        · intro hx; exact absurd hx (by simp)
        · intro _ k hk hfail hbefore
          match k with
          | 0 => rfl
          | Nat.succ k =>
            have := hbefore 0 (Nat.succ_pos k) res hres
            rw [this] at hsucc2; exact absurd hsucc2 (by simp)

/-- C2: ExecuteBatch processes requests strictly in order; with
continueOnError false and the first failing request at position k the
result list has exactly k+1 entries; with continueOnError true there is
one entry per submitted request; and the returned counters equal the
number of successful and failed entries in the result list. -/
theorem executeBatch_order_and_counts (r : Registry) (hWF : r.WF)
    (request : BatchExecutionRequest) :
    ∃ batch, r.ExecuteBatch request = .ok batch ∧
      batch.successfulCount = batch.results.countP (fun x => x.success) ∧
      batch.failedCount = batch.results.countP (fun x => !x.success) ∧
      (∀ i (hi : i < batch.results.length), ∃ hi2 : i < request.tools.length,
        r.Execute (request.tools.get ⟨i, hi2⟩).toolName
          (request.tools.get ⟨i, hi2⟩).params = .ok (batch.results.get ⟨i, hi⟩)) ∧
      (request.continueOnError = true →
        batch.results.length = request.tools.length) ∧
      (request.continueOnError = false → ∀ k (hk : k < request.tools.length),
        (∀ res, r.Execute (request.tools.get ⟨k, hk⟩).toolName
            (request.tools.get ⟨k, hk⟩).params = .ok res → res.success = false) →
        (∀ j (hj : j < k), ∀ res,
          r.Execute (request.tools.get ⟨j, hj.trans hk⟩).toolName
            (request.tools.get ⟨j, hj.trans hk⟩).params = .ok res →
          res.success = true) →
        batch.results.length = k + 1) := by
  obtain ⟨rs, s, f, h1, h2, h3, h4, h5, h6⟩ :=
    execBatchGo_spec r hWF request.continueOnError request.tools
  exact ⟨⟨rs, s, f⟩, by simp [Registry.ExecuteBatch, h1], h2, h3, h4, h5, h6⟩

/-- The normal result of executing the always-failing demonstration tool. -/
def wResBoom : ExecutionResult :=
  { success := false, toolName := gs ("boom"), result := none,
    error := gs ("kaboom"), errorType := gs ("execution_error") }

/-- The normal result of executing the always-succeeding demonstration
tool. -/
def wResGood : ExecutionResult :=
  { success := true, toolName := gs ("good"), result := some [],
    error := [], errorType := [] }

theorem wExecBoom_eq : wReg1.Execute (gs ("boom")) [] = .ok wResBoom := rfl

theorem wExecGood_eq : wReg1.Execute (gs ("good")) [] = .ok wResGood := rfl

/-- The demonstration batch: a success, then a failure, then a request
that must never be attempted when continueOnError is false. -/
def wBatch : BatchExecutionRequest :=
  { tools := [⟨gs ("good"), []⟩, ⟨gs ("boom"), []⟩, ⟨gs ("good"), []⟩],
    continueOnError := false }

theorem executeBatch_order_and_counts_witness :
    ∃ batch, wReg1.ExecuteBatch wBatch = .ok batch ∧
      batch.results.length = 2 ∧ batch.successfulCount = 1 ∧
      batch.failedCount = 1 := by
  obtain ⟨batch, hb, hs, hf, hidx, hlen, hstop⟩ :=
    executeBatch_order_and_counts wReg1 wReg1_wf wBatch
  have hk : 1 < wBatch.tools.length := by decide
  have hfail : ∀ res,
      wReg1.Execute (wBatch.tools.get ⟨1, hk⟩).toolName
        (wBatch.tools.get ⟨1, hk⟩).params = .ok res → res.success = false := by
    intro res h
    have h2 : wResBoom = res := Except.ok.inj (wExecBoom_eq.symm.trans h)
    rw [← h2]; rfl
  have hbefore : ∀ j (hj : j < 1), ∀ res,
      wReg1.Execute (wBatch.tools.get ⟨j, hj.trans hk⟩).toolName
        (wBatch.tools.get ⟨j, hj.trans hk⟩).params = .ok res →
      res.success = true := by
    intro j hj res h
    match j, hj with
    | 0, _ =>
      have h2 : wResGood = res := Except.ok.inj (wExecGood_eq.symm.trans h)
      rw [← h2]; rfl
  have hlen2 := hstop rfl 1 hk hfail hbefore
  have hcnt : batch = ⟨[wResGood, wResBoom], 1, 1⟩ := by
    have : wReg1.ExecuteBatch wBatch = .ok ⟨[wResGood, wResBoom], 1, 1⟩ := rfl
    exact Except.ok.inj (hb.symm.trans this)
  exact ⟨batch, hb, hlen2, by rw [hcnt], by rw [hcnt]⟩

/-- Removing an appended head part recovers exactly the tail part. -/
theorem goTrimHead_append (pre t : GoStr) : goTrimHead (pre ++ t) pre = t := by
  have h : pre.isPrefixOf (pre ++ t) = true := by
    rw [ List.isPrefixOf_iff_prefix]
    exact List.prefix_append pre t
  simp [goTrimHead, h]

/-- Associativity-normalised form of the previous lemma, matching the
shape simp produces for appended names. -/
theorem goTrimHead_append2 (s u t : GoStr) :
    goTrimHead (s ++ (u ++ t)) (s ++ u) = t := by
  rw [← List.append_assoc]
  exact goTrimHead_append (s ++ u) t

/-- C5: registering an external tool from a source stores it in the catalog
under the composed name sourceName_toolName, and executing that composed
name strips the sourceName_ head again and invokes the executor registered
for the source with the original unprefixed tool name and the given
arguments — the composition at registration is undone exactly at
execution, for every source name and tool name. -/
theorem register_execute_roundtrip (r r2 : Registry)
    (sourceName category toolName description : GoStr) (schema : Option JVal)
    (ex : Executor) (params : Args)
    (hex : r.externalExecutors sourceName = some ex)
    (hreg : r.RegisterExternalTool sourceName category toolName description schema
      = .ok r2) :
    r2.tools (sourceName ++ gs ("_") ++ toolName) = some
      { name := sourceName ++ gs ("_") ++ toolName, category := category,
        description := description, inputSchema := schema, handler := none,
        source := externalSrc, sourceName := sourceName } ∧
    (∀ e, ex toolName params = .error e →
      r2.Execute (sourceName ++ gs ("_") ++ toolName) params = .ok
        { success := false, toolName := sourceName ++ gs ("_") ++ toolName,
          result := none, error := e, errorType := gs ("execution_error") }) ∧
    (∀ v, ex toolName params = .ok v →
      r2.Execute (sourceName ++ gs ("_") ++ toolName) params = .ok
        { success := true, toolName := sourceName ++ gs ("_") ++ toolName,
          result := some (wrapExternal v), error := [], errorType := [] }) := by
  simp only [Registry.RegisterExternalTool, Registry.Register] at hreg
  split at hreg
  · exact Except.noConfusion hreg
  · split at hreg
    · exact Except.noConfusion hreg
    · split at hreg
      · exact Except.noConfusion hreg
      · have hr2 := (Except.ok.inj hreg).symm
        subst hr2
        refine ⟨by simp, ?_, ?_⟩
        · intro e he
          simp only [Registry.Execute, Registry.Get]
          simp [externalSrc_ne_internalSrc, hex, goTrimHead_append2, he]
        · intro v hv
          simp only [Registry.Execute, Registry.Get]
          simp [externalSrc_ne_internalSrc, hex, goTrimHead_append2, hv]

/-- A demonstration executor for the source named fs: it echoes the
unprefixed tool name it was invoked with. -/
def wExecFS : Executor := fun name _ => .ok (.obj [(gs ("echo"), .str name)])

/-- Registry with only the fs executor registered. -/
def wRegFS : Registry := Registry.new.RegisterExternalExecutor (gs ("fs")) wExecFS

/-- The tool record produced by registering the external fs read tool. -/
def wToolFSRead : Tool :=
  { name := gs ("fs") ++ gs ("_") ++ gs ("read"), category := gs ("filesystem"),
    description := gs ("reads a file"), inputSchema := none, handler := none,
    source := externalSrc, sourceName := gs ("fs") }

/-- The registry after registering the external fs read tool. -/
def wRegFS2 : Registry :=
  { wRegFS with tools :=
      fun n => if n = wToolFSRead.name then some wToolFSRead else wRegFS.tools n }

theorem register_execute_roundtrip_witness :
    gs ("fs") ++ gs ("_") ++ gs ("read") = gs ("fs_read") ∧
    wRegFS2.tools (gs ("fs") ++ gs ("_") ++ gs ("read")) = some wToolFSRead ∧
    wRegFS2.Execute (gs ("fs") ++ gs ("_") ++ gs ("read")) [] = .ok
      { success := true, toolName := gs ("fs") ++ gs ("_") ++ gs ("read"),
        result := some (wrapExternal (.obj [(gs ("echo"), .str (gs ("read")))])),
        error := [], errorType := [] } := by
  have h := register_execute_roundtrip wRegFS wRegFS2 (gs ("fs")) (gs ("filesystem"))
    (gs ("read")) (gs ("reads a file")) none wExecFS [] rfl rfl
  exact ⟨by decide, h.1, h.2.2 (.obj [(gs ("echo"), .str (gs ("read")))]) rfl⟩

/-- C8: Register rejects an empty name with the InvalidTool kind, an
internal tool without a handler with the MissingHandler kind, and an
already-present name with the DuplicateName kind; after a successful
registration, Get returns a tool equal to the registered one in all
fields, and a second registration under the same name fails with
DuplicateName while the first registration stays in place. -/
theorem register_get_semantics (r : Registry) (tool : Tool) :
    (tool.name = [] → r.Register tool = .error .invalidTool) ∧
    (tool.name ≠ [] → tool.source = internalSrc → tool.handler = none →
      r.Register tool = .error .missingHandler) ∧
    (tool.name ≠ [] → ¬(tool.source = internalSrc ∧ tool.handler.isNone) →
      (r.tools tool.name).isSome → r.Register tool = .error .duplicateName) ∧
    (∀ r2, r.Register tool = .ok r2 →
      r2.Get tool.name = .ok tool ∧
      (∀ tool2, tool2.name = tool.name →
        ¬(tool2.source = internalSrc ∧ tool2.handler.isNone) →
        r2.Register tool2 = .error .duplicateName)) := by
  refine ⟨?_, ?_, ?_, ?_⟩
  · intro h
    unfold Registry.Register
    rw [if_pos h]
  · intro h1 h2 h3
    have hcond : tool.source = internalSrc ∧ tool.handler.isNone :=
      ⟨h2, by rw [h3]; rfl⟩
    unfold Registry.Register
    rw [if_neg h1, if_pos hcond]
  · intro h1 h2 h3
    unfold Registry.Register
    rw [if_neg h1, if_neg h2, if_pos h3]
  · intro r2 hreg
    simp only [Registry.Register] at hreg
    split at hreg
    · exact Except.noConfusion hreg
    · split at hreg
      · exact Except.noConfusion hreg
      · split at hreg
        · exact Except.noConfusion hreg
        · rename_i hname hmiss hdup
          have hr2 := (Except.ok.inj hreg).symm
          subst hr2
          constructor
          · simp [Registry.Get]
          · intro tool2 hn2 hv2
            have hn2ne : ¬ tool2.name = [] := by rw [hn2]; exact hname
            have hsome2 :
                (({ r with tools := fun n =>
                    if n = tool.name then some tool else r.tools n }).tools
                  tool2.name).isSome := by
              simp [hn2]
            unfold Registry.Register
            rw [if_neg hn2ne, if_neg hv2, if_pos hsome2]

/-- The registry holding only the always-succeeding demonstration tool,
as produced by registering it into the empty registry. -/
def wRegGood : Registry :=
  { Registry.new with tools :=
      fun n => if n = wToolGood.name then some wToolGood else Registry.new.tools n }

/-- A tool with an empty name, rejected at registration. -/
def wToolNoName : Tool :=
  { name := [], category := [], description := [], inputSchema := none,
    handler := none, source := externalSrc, sourceName := [] }

/-- An internal tool without a handler, rejected at registration. -/
def wToolNoHandler : Tool :=
  { name := gs ("lost"), category := [], description := [], inputSchema := none,
    handler := none, source := internalSrc, sourceName := [] }

theorem register_get_semantics_witness :
    Registry.new.Register wToolNoName = .error .invalidTool ∧
    Registry.new.Register wToolNoHandler = .error .missingHandler ∧
    wRegGood.Get (gs ("good")) = .ok wToolGood ∧
    wRegGood.Register wToolGood = .error .duplicateName := by
  refine ⟨?_, ?_, ?_, ?_⟩
  · exact (register_get_semantics Registry.new wToolNoName).1 rfl
  · exact (register_get_semantics Registry.new wToolNoHandler).2.1
      (by decide) rfl rfl
  · exact ((register_get_semantics Registry.new wToolGood).2.2.2 wRegGood rfl).1
  · exact ((register_get_semantics Registry.new wToolGood).2.2.2 wRegGood rfl).2
      wToolGood rfl (by simp [wToolGood])

section VectorStore

variable {K : Type} [LinearOrderedField K]

/-- The dot product accumulated by the loop of cosineSimilarity
(memory_store.go). -/
def dotProduct (a b : List K) : K := (List.zipWith (fun x y => x * y) a b).sum

/-- The squared norm accumulated by the loop of cosineSimilarity
(memory_store.go, normA and normB). -/
def sumSq (a : List K) : K := (a.map (fun x => x * x)).sum

/-- cosineSimilarity (memory_store.go): zero for mismatched lengths, zero
when either squared norm is zero, otherwise the dot product over the
product of the square roots of the squared norms. float32 arithmetic is
idealised as exact field arithmetic, and the square root is an explicit
parameter so the definition can be read at K = Real with the real square
root. -/
def cosineSimilarity (sqrt : K → K) (a b : List K) : K :=
  if a.length ≠ b.length then 0
  else if sumSq a = 0 ∨ sumSq b = 0 then 0
  else dotProduct a b / (sqrt (sumSq a) * sqrt (sumSq b))

theorem sumSq_nonneg (a : List K) : 0 ≤ sumSq a := by
  refine List.sum_nonneg ?_
  intro x hx
  obtain ⟨y, _, rfl⟩ := List.mem_map.mp hx
  exact mul_self_nonneg y

theorem dotProduct_self (a : List K) : dotProduct a a = sumSq a := by
  induction a with
  | nil => rfl
  | cons x xs ih =>
    simp only [dotProduct, sumSq, List.zipWith_cons_cons, List.map_cons,
      List.sum_cons] at *
    rw [ih]

theorem sumSq_map_neg (a : List K) : sumSq (a.map (fun x => -x)) = sumSq a := by
  induction a with
  | nil => rfl
  | cons x xs ih =>
    simp only [sumSq, List.map_cons, List.sum_cons, neg_mul_neg] at *
    rw [ih]

theorem dotProduct_map_neg (a : List K) :
    dotProduct a (a.map (fun x => -x)) = -(sumSq a) := by
  induction a with
  | nil => simp [dotProduct, sumSq]
  | cons x xs ih =>
    simp only [dotProduct, sumSq, List.map_cons, List.zipWith_cons_cons,
      List.sum_cons, mul_neg] at *
    rw [ih, neg_add]

end VectorStore

/-- C7: cosine similarity of a vector with itself is one when its norm is
non-zero; orthogonal vectors give zero; exactly opposite vectors give
minus one; mismatched lengths give zero; any zero-norm input gives zero;
and whenever the division is reached its divisor is non-zero, so no
division by zero ever occurs and the result is a well-defined finite
value. -/
theorem cosineSimilarity_properties (a b : List ℝ) :
    (a.length ≠ b.length → cosineSimilarity Real.sqrt a b = 0) ∧
    (sumSq a = 0 ∨ sumSq b = 0 → cosineSimilarity Real.sqrt a b = 0) ∧
    (dotProduct a b = 0 → cosineSimilarity Real.sqrt a b = 0) ∧
    (sumSq a ≠ 0 → cosineSimilarity Real.sqrt a a = 1) ∧
    (b = a.map (fun x => -x) → sumSq a ≠ 0 →
      cosineSimilarity Real.sqrt a b = -1) ∧
    (a.length = b.length → sumSq a ≠ 0 → sumSq b ≠ 0 →
      Real.sqrt (sumSq a) * Real.sqrt (sumSq b) ≠ 0) := by
  have hposdiv : ∀ c : List ℝ, sumSq c ≠ 0 → 0 < Real.sqrt (sumSq c) :=
    fun c hc => Real.sqrt_pos.mpr (lt_of_le_of_ne (sumSq_nonneg c) (Ne.symm hc))
  refine ⟨?_, ?_, ?_, ?_, ?_, ?_⟩
  · intro h; simp [cosineSimilarity, h]
  · intro h
    unfold cosineSimilarity
    split
    · rfl
    · rfl
  · intro h
    unfold cosineSimilarity
    split
    · rfl
    · split
      · rfl
      · rw [h, zero_div]
  · intro h
    have hlen : ¬ a.length ≠ a.length := fun hx => hx rfl
    have hnorm : ¬ (sumSq a = 0 ∨ sumSq a = 0) := fun hx => h (hx.elim id id)
    unfold cosineSimilarity
    rw [if_neg hlen, if_neg hnorm, dotProduct_self,
      Real.mul_self_sqrt (sumSq_nonneg a), div_self h]
  · intro hb h
    subst hb
    have hlen : ¬ a.length ≠ (a.map (fun x => -x)).length := by
      simp
    have hnorm : ¬ (sumSq a = 0 ∨ sumSq (a.map (fun x => -x)) = 0) := by
      rw [sumSq_map_neg]
      exact fun hx => h (hx.elim id id)
    unfold cosineSimilarity
    rw [if_neg hlen, if_neg hnorm, dotProduct_map_neg, sumSq_map_neg,
      Real.mul_self_sqrt (sumSq_nonneg a), neg_div, div_self h]
  · intro _ ha hb2
    exact ne_of_gt (mul_pos (hposdiv a ha) (hposdiv b hb2))

theorem cosineSimilarity_properties_witness :
    cosineSimilarity Real.sqrt [(3 : ℝ), 4] [(3 : ℝ), 4] = 1 ∧
    cosineSimilarity Real.sqrt [(3 : ℝ), 4] [(-3 : ℝ), -4] = -1 ∧
    cosineSimilarity Real.sqrt [(1 : ℝ), 0] [(0 : ℝ), 1] = 0 ∧
    cosineSimilarity Real.sqrt [(1 : ℝ)] [(1 : ℝ), 1] = 0 ∧
    cosineSimilarity Real.sqrt [(0 : ℝ), 0] [(1 : ℝ), 1] = 0 := by
  refine ⟨?_, ?_, ?_, ?_, ?_⟩
  · exact (cosineSimilarity_properties [(3 : ℝ), 4] [(3 : ℝ), 4]).2.2.2.1
      (by norm_num [sumSq])
  · exact (cosineSimilarity_properties [(3 : ℝ), 4] [(-3 : ℝ), -4]).2.2.2.2.1
      (by norm_num) (by norm_num [sumSq])
  · exact (cosineSimilarity_properties [(1 : ℝ), 0] [(0 : ℝ), 1]).2.2.1
      (by norm_num [dotProduct])
  · exact (cosineSimilarity_properties [(1 : ℝ)] [(1 : ℝ), 1]).1 (by norm_num)
  · exact (cosineSimilarity_properties [(0 : ℝ), 0] [(1 : ℝ), 1]).2.1
      (Or.inl (by norm_num [sumSq]))

/-- The type of comparison sorts as seen through the sort.Slice interface:
a routine receiving only a less function and the sequence to sort. -/
def SorterT : Type 1 := (α : Type) → (α → α → Bool) → List α → List α

/-- The requirements sort.Slice places on its less function (it must
describe a strict ordering): asymmetry and co-transitivity. Both hold for
the strict greater-than on scores used by Search. -/
def LessOK {α : Type} (less : α → α → Bool) : Prop :=
  (∀ a b, less a b = true → less b a = false) ∧
  (∀ a b c, less a c = true → less a b = true ∨ less b c = true)

/-- Documented contract of sort.Slice, part one: the output is a
permutation of the input. -/
def SorterPerm (sorter : SorterT) : Prop :=
  ∀ (α : Type) (less : α → α → Bool) (l : List α), (sorter α less l).Perm l

/-- Documented contract of sort.Slice, part two: for a well-behaved less
function the output is sorted, i.e. no element is less than an earlier
one. Stability is deliberately absent from this contract: the library
documents that this sort is not guaranteed to be stable. -/
def SorterSorted (sorter : SorterT) : Prop :=
  ∀ (α : Type) (less : α → α → Bool), LessOK less →
    ∀ l : List α, (sorter α less l).Pairwise (fun a b => less b a = false)

/-- A comparison sort inspects elements only through the less function and
moves them only by swaps, so it commutes with relabelling the elements
along any map that preserves comparisons. -/
def SorterNatural (sorter : SorterT) : Prop :=
  ∀ (α β : Type) (f : α → β) (lessa : α → α → Bool) (lessb : β → β → Bool),
    (∀ a b, lessb (f a) (f b) = lessa a b) →
    ∀ l : List α, sorter β lessb (l.map f) = (sorter α lessa l).map f

/-- One embedding-table entry: the tool, its vector and the transient
score recomputed on every search (vectorstore/types.go, ToolEmbedding). -/
structure ToolEmbedding (K : Type) : Type where
  tool : Tool
  embedding : List K
  score : K

/-- The in-memory vector store: the embedding table and the active
embedding strategy (memory_store.go, InMemoryVectorStore). The strategy
is its Generate method: text to vector or error. -/
structure InMemoryVectorStore (K : Type) : Type where
  embeddings : List (ToolEmbedding K)
  embedder : GoStr → Except GoStr (List K)

section Search

variable {K : Type} [LinearOrderedField K]

/-- The scored copy of the embedding table built by Search: every entry's
transient score becomes the cosine similarity between the query embedding
and the entry's embedding (memory_store.go, Search). -/
def scoredList (sqrt : K → K) (s : InMemoryVectorStore K) (qe : List K) :
    List (ToolEmbedding K) :=
  s.embeddings.map (fun te =>
    { te with score := cosineSimilarity sqrt qe te.embedding })

/-- The comparison passed to the sort by Search: an entry sorts before
another when its score is strictly greater (memory_store.go, Search). -/
def scoreLess (a b : ToolEmbedding K) : Bool := decide (b.score < a.score)

/-- Search (memory_store.go): an empty index immediately returns an empty
list and no error; otherwise the query is embedded, every entry is scored
with cosine similarity, the scored table is sorted descending by score
with the stdlib comparison sort, and the first topK tools are returned. -/
def Search (sqrt : K → K) (sorter : SorterT) (s : InMemoryVectorStore K)
    (query : GoStr) (topK : Nat) : Except GoStr (List Tool) :=
  if s.embeddings.isEmpty then .ok []
  else
    match s.embedder query with
    | .error e => .error (gs ("failed to generate query embedding: ") ++ e)
    | .ok qe =>
      .ok (((sorter (ToolEmbedding K) scoreLess (scoredList sqrt s qe)).take topK).map
        (fun te => te.tool))

theorem scoreLess_ok : LessOK (α := ToolEmbedding K) scoreLess := by
  constructor
  · intro a b h
    simp only [scoreLess, decide_eq_true_eq] at h
    simp only [scoreLess, decide_eq_false_iff_not]
    exact not_lt.mpr h.le
  · intro a b c h
    simp only [scoreLess, decide_eq_true_eq] at h ⊢
    rcases lt_or_le b.score a.score with h2 | h2
    · exact Or.inl h2
    · exact Or.inr (lt_of_lt_of_le h h2)

end Search

section Sorters

variable {α β : Type}

/-- Insertion before the first element that is not strictly less: the
stable descending insertion used as the specification-side reference
ranking (tied elements keep the pre-sort relative order). -/
def insStable (less : α → α → Bool) (x : α) : List α → List α
  | [] => [x]
  | y :: ys => if less y x then y :: insStable less x ys else x :: y :: ys

/-- Specification-side stable sort by right-fold insertion. -/
def stableSort (less : α → α → Bool) (l : List α) : List α :=
  l.foldr (insStable less) []

/-- Insertion after the trailing tied elements: an admissible comparison
sort built on it reverses the relative order of tied elements. -/
def insAnti (less : α → α → Bool) (x : α) : List α → List α
  | [] => [x]
  | y :: ys => if less x y then x :: y :: ys else y :: insAnti less x ys

/-- A sorting routine satisfying the sort.Slice contract that is not
stable. -/
def antiSortList (less : α → α → Bool) (l : List α) : List α :=
  l.foldr (insAnti less) []

theorem insStable_perm (less : α → α → Bool) (x : α) (l : List α) :
    (insStable less x l).Perm (x :: l) := by
  induction l with
  | nil => exact List.Perm.refl _
  | cons y ys ih =>
    unfold insStable
    split
    · exact (ih.cons y).trans (List.Perm.swap x y ys)
    · exact List.Perm.refl _

theorem insAnti_perm (less : α → α → Bool) (x : α) (l : List α) :
    (insAnti less x l).Perm (x :: l) := by
  induction l with
  | nil => exact List.Perm.refl _
  | cons y ys ih =>
    unfold insAnti
    split
    · exact List.Perm.refl _
    · exact (ih.cons y).trans (List.Perm.swap x y ys)

theorem stableSort_perm (less : α → α → Bool) (l : List α) :
    (stableSort less l).Perm l := by
  induction l with
  | nil => exact List.Perm.refl _
  | cons x xs ih =>
    exact (insStable_perm less x (stableSort less xs)).trans (ih.cons x)

theorem antiSortList_perm (less : α → α → Bool) (l : List α) :
    (antiSortList less l).Perm l := by
  induction l with
  | nil => exact List.Perm.refl _
  | cons x xs ih =>
    exact (insAnti_perm less x (antiSortList less xs)).trans (ih.cons x)

theorem insStable_pairwise {less : α → α → Bool} (hOK : LessOK less) (x : α)
    {l : List α} (hl : l.Pairwise (fun a b => less b a = false)) :
    (insStable less x l).Pairwise (fun a b => less b a = false) := by
  induction l with
  | nil => simp [insStable]
  | cons y ys ih =>
    rcases List.pairwise_cons.mp hl with ⟨hy, hys⟩
    unfold insStable
    split
    · rename_i hyx
      refine List.pairwise_cons.mpr ⟨?_, ih hys⟩
      intro z hz
      rcases List.mem_cons.mp ((insStable_perm less x ys).mem_iff.mp hz) with
        hzx | hzys
      · rw [hzx]; exact hOK.1 y x hyx
      · exact hy z hzys
    · rename_i hyx
      have hyx2 : less y x = false := by
        cases hv : less y x with
        | false => rfl
        | true => exact absurd hv hyx
      refine List.pairwise_cons.mpr ⟨?_, hl⟩
      intro z hz
      rcases List.mem_cons.mp hz with rfl | hzys
      · exact hyx2
      · cases hzx : less z x with
        | false => rfl
        | true =>
          rcases hOK.2 z y x hzx with h1 | h1
          · rw [hy z hzys] at h1; exact absurd h1 (by simp)
          · rw [hyx2] at h1; exact absurd h1 (by simp)

theorem insAnti_pairwise {less : α → α → Bool} (hOK : LessOK less) (x : α)
    {l : List α} (hl : l.Pairwise (fun a b => less b a = false)) :
    (insAnti less x l).Pairwise (fun a b => less b a = false) := by
  induction l with
  | nil => simp [insAnti]
  | cons y ys ih =>
    rcases List.pairwise_cons.mp hl with ⟨hy, hys⟩
    unfold insAnti
    split
    · rename_i hxy
      refine List.pairwise_cons.mpr ⟨?_, hl⟩
      intro z hz
      rcases List.mem_cons.mp hz with rfl | hzys
      · exact hOK.1 x z hxy
      · cases hzx : less z x with
        | false => rfl
        | true =>
          rcases hOK.2 z y x hzx with h1 | h1
          · rw [hy z hzys] at h1; exact absurd h1 (by simp)
          · rw [hOK.1 x y hxy] at h1; exact absurd h1 (by simp)
    · rename_i hxy
      have hxy2 : less x y = false := by
        cases hv : less x y with
        | false => rfl
        | true => exact absurd hv hxy
      refine List.pairwise_cons.mpr ⟨?_, ih hys⟩
      intro z hz
      rcases List.mem_cons.mp ((insAnti_perm less x ys).mem_iff.mp hz) with
        hzx | hzys
      · rw [hzx]; exact hxy2
      · exact hy z hzys

theorem insStable_map (f : α → β) (lessa : α → α → Bool) (lessb : β → β → Bool)
    (hc : ∀ a b, lessb (f a) (f b) = lessa a b) (x : α) (l : List α) :
    insStable lessb (f x) (l.map f) = (insStable lessa x l).map f := by
  induction l with
  | nil => rfl
  | cons y ys ih =>
    simp only [List.map_cons]
    unfold insStable
    rw [hc y x]
    split
    · rw [ih, List.map_cons]
    · simp

theorem stableSort_map (f : α → β) (lessa : α → α → Bool) (lessb : β → β → Bool)
    (hc : ∀ a b, lessb (f a) (f b) = lessa a b) (l : List α) :
    stableSort lessb (l.map f) = (stableSort lessa l).map f := by
  induction l with
  | nil => rfl
  | cons x xs ih =>
    show insStable lessb (f x) (stableSort lessb (xs.map f))
      = (insStable lessa x (stableSort lessa xs)).map f
    rw [ih, insStable_map f lessa lessb hc]

/-- The stable insertion sort packaged as a sorting routine. -/
def stableSorter : SorterT := fun _ less l => stableSort less l

/-- The tie-reversing insertion sort packaged as a sorting routine. -/
def antiSorter : SorterT := fun _ less l => antiSortList less l

theorem stableSorter_perm : SorterPerm stableSorter := by
  intro α less l
  exact stableSort_perm less l

theorem stableSorter_sorted : SorterSorted stableSorter := by
  intro α less hOK l
  induction l with
  | nil => exact List.Pairwise.nil
  | cons x xs ih => exact insStable_pairwise hOK x ih

theorem stableSorter_natural : SorterNatural stableSorter := by
  intro α β f lessa lessb hc l
  exact stableSort_map f lessa lessb hc l

theorem antiSorter_perm : SorterPerm antiSorter := by
  intro α less l
  exact antiSortList_perm less l

theorem antiSorter_sorted : SorterSorted antiSorter := by
  intro α less hOK l
  induction l with
  | nil => exact List.Pairwise.nil
  | cons x xs ih => exact insAnti_pairwise hOK x ih

end Sorters

/-- C3 (amended): for every index and query whose embedding succeeds,
Search ranks the indexed tools in descending order of cosine similarity
to the query embedding and returns the first topK of them, fewer when the
index holds fewer; the relative order of tools with equal similarity is
unspecified, because the sort used satisfies only the unstable-sort
contract; an empty index returns an empty result list and no error. -/
theorem search_ranking (K : Type) [LinearOrderedField K] (sqrt : K → K)
    (sorter : SorterT) (hperm : SorterPerm sorter) (hsorted : SorterSorted sorter)
    (s : InMemoryVectorStore K) (query : GoStr) (topK : Nat) :
    (s.embeddings.isEmpty = true → Search sqrt sorter s query topK = .ok []) ∧
    (∀ qe, s.embeddings.isEmpty = false → s.embedder query = .ok qe →
      ∃ ranked : List (ToolEmbedding K),
        ranked.Perm (scoredList sqrt s qe) ∧
        ranked.Pairwise (fun a b => b.score ≤ a.score) ∧
        Search sqrt sorter s query topK =
          .ok ((ranked.take topK).map (fun te => te.tool)) ∧
        ((ranked.take topK).map (fun te => te.tool)).length
          = min topK s.embeddings.length) := by
  constructor
  · intro h
    simp [Search, h]
  · intro qe hne hqe
    refine ⟨sorter (ToolEmbedding K) scoreLess (scoredList sqrt s qe),
      hperm _ _ _, ?_, ?_, ?_⟩
    · refine (hsorted _ scoreLess scoreLess_ok _).imp ?_
      intro a b hab
      simp only [scoreLess, decide_eq_false_iff_not] at hab
      exact not_lt.mp hab
    · simp [Search, hne, hqe]
    · rw [List.length_map, List.length_take,
        (hperm _ scoreLess (scoredList sqrt s qe)).length_eq]
      simp [scoredList]

/-- The ranking property exactly as the specification states it, written
from the specification's words for refutation: for every sorting routine
satisfying the sort contract, the returned ranking equals the first topK
of the STABLE descending sort of the scored table, i.e. ties are broken
by the tools' pre-sort relative order. The code's Search is on the left
of the equation. -/
def searchStableTieClaim : Prop :=
  ∀ (sorter : SorterT), SorterPerm sorter → SorterSorted sorter →
    ∀ (sqrt : ℚ → ℚ) (s : InMemoryVectorStore ℚ) (query : GoStr) (topK : Nat)
      (qe : List ℚ),
      s.embeddings.isEmpty = false → s.embedder query = .ok qe →
      Search sqrt sorter s query topK =
        .ok (((stableSort scoreLess (scoredList sqrt s qe)).take topK).map
          (fun te => te.tool))

/-- First of the two tools whose scores tie in the counterexample. -/
def wToolAlpha : Tool :=
  { name := gs ("alpha"), category := [], description := [], inputSchema := none,
    handler := none, source := externalSrc, sourceName := [] }

/-- Second of the two tools whose scores tie in the counterexample. -/
def wToolBeta : Tool :=
  { name := gs ("beta"), category := [], description := [], inputSchema := none,
    handler := none, source := externalSrc, sourceName := [] }

/-- An index holding two tools with identical embeddings, so any query
gives both the same cosine similarity. -/
def wTieStore : InMemoryVectorStore ℚ :=
  { embeddings :=
      [{ tool := wToolAlpha, embedding := [1], score := 0 },
       { tool := wToolBeta, embedding := [1], score := 0 }],
    embedder := fun _ => .ok [1] }

/-- The common cosine score of both tied entries of the counterexample
index. It is never evaluated numerically: only its equality with itself
matters for the tie. -/
def wTieScore : ℚ := cosineSimilarity (fun x => x) [1] [1]

theorem search_stable_tie_counterexample : ¬ searchStableTieClaim := by
  intro h
  have h2 := h antiSorter antiSorter_perm antiSorter_sorted (fun x => x)
    wTieStore (gs ("q")) 2 [1] rfl rfl
  have hless : ∀ t1 t2 : Tool,
      scoreLess { tool := t1, embedding := [1], score := wTieScore }
        { tool := t2, embedding := [1], score := wTieScore } = false := by
    intro t1 t2
    simp [scoreLess]
  have hscored : scoredList (fun x => x) wTieStore [1] =
      [{ tool := wToolAlpha, embedding := [1], score := wTieScore },
       { tool := wToolBeta, embedding := [1], score := wTieScore }] := rfl
  have e1 : Search (fun x => x) antiSorter wTieStore (gs ("q")) 2
      = .ok (((antiSorter (ToolEmbedding ℚ) scoreLess
          (scoredList (fun x => x) wTieStore [1])).take 2).map
          (fun te => te.tool)) := rfl
  have e2 : antiSorter (ToolEmbedding ℚ) scoreLess (scoredList (fun x => x) wTieStore [1])
      = [{ tool := wToolBeta, embedding := [1], score := wTieScore },
         { tool := wToolAlpha, embedding := [1], score := wTieScore }] := by
    rw [hscored]
    show antiSortList scoreLess _ = _
    simp [antiSortList, insAnti, hless]
  have e3 : stableSort scoreLess (scoredList (fun x => x) wTieStore [1])
      = [{ tool := wToolAlpha, embedding := [1], score := wTieScore },
         { tool := wToolBeta, embedding := [1], score := wTieScore }] := by
    rw [hscored]
    simp [stableSort, insStable, hless]
  have e4 : Search (fun x => x) antiSorter wTieStore (gs ("q")) 2
      = .ok [wToolBeta, wToolAlpha] := by
    rw [e1, e2]; rfl
  have e5 : (.ok (((stableSort scoreLess
        (scoredList (fun x => x) wTieStore [1])).take 2).map (fun te => te.tool))
      : Except GoStr (List Tool)) = .ok [wToolAlpha, wToolBeta] := by
    rw [e3]; rfl
  have h3 : ([wToolBeta, wToolAlpha] : List Tool) = [wToolAlpha, wToolBeta] :=
    Except.ok.inj ((e4.symm.trans h2).trans e5)
  have h4 : wToolBeta = wToolAlpha := (List.cons.injEq _ _ _ _).mp h3 |>.1
  have h5 := congrArg Tool.name h4
  exact absurd h5 (by decide)

theorem search_ranking_witness :
    ∃ ranked : List (ToolEmbedding ℚ),
      ranked.Perm (scoredList (fun x => x) wTieStore [1]) ∧
      ranked.Pairwise (fun a b => b.score ≤ a.score) ∧
      Search (fun x => x) stableSorter wTieStore (gs ("q")) 1 =
        .ok ((ranked.take 1).map (fun te => te.tool)) ∧
      ((ranked.take 1).map (fun te => te.tool)).length
        = min 1 wTieStore.embeddings.length :=
  (search_ranking ℚ (fun x => x) stableSorter stableSorter_perm
    stableSorter_sorted wTieStore (gs ("q")) 1).2 [1] rfl rfl

/-- ASCII space characters recognised by the tokenizer (unicode.IsSpace
restricted to the ASCII range; the corpus of this system is ASCII tool
metadata). -/
def goSpaceChars : List Char := [' ', '\t', '\n', '\x0b', '\x0c', '\r']

/-- A character the tokenizer treats as blank. -/
def goIsSpace (c : Char) : Bool := goSpaceChars.contains c

/-- ASCII punctuation characters, Unicode category P restricted to ASCII:
dollar, plus, angle brackets, equals, caret, grave, pipe and tilde belong
to the symbol categories and are deliberately absent, matching
unicode.IsPunct. -/
def goPunctChars : List Char :=
  ['!', '\x22', '#', '%', '&', '\x27', '(', ')', '*', ',', '-', '.', '/',
   ':', ';', '?', '@', '[', '\\', ']', '_', '\x7b', '\x7d']

/-- A character the tokenizer treats as punctuation. -/
def goIsPunct (c : Char) : Bool := goPunctChars.contains c

/-- Stop words removed by the TF-IDF tokenizer (tfidf_embedder.go). -/
def tfidfStopWords : List GoStr :=
  [gs ("a"), gs ("an"), gs ("the"), gs ("and"), gs ("or"),
   gs ("but"), gs ("in"), gs ("on"), gs ("at"), gs ("to"),
   gs ("for"), gs ("of"), gs ("with"), gs ("by"), gs ("from"),
   gs ("as"), gs ("is"), gs ("was"), gs ("are"), gs ("were"),
   gs ("be"), gs ("been"), gs ("being"), gs ("have"), gs ("has"),
   gs ("had"), gs ("do"), gs ("does"), gs ("did"), gs ("will"),
   gs ("would"), gs ("could"), gs ("should"), gs ("may"), gs ("might"),
   gs ("can"), gs ("this"), gs ("that"), gs ("these"), gs ("those")]

/-- strings.FieldsFunc: the maximal runs of characters that do not satisfy
the separator predicate. -/
def goFields (p : Char → Bool) (s : GoStr) : List GoStr :=
  (s.splitOnP p).filter (fun w => !w.isEmpty)

/-- The TF-IDF tokenizer (tfidf_embedder.go, tokenize): lowercase, split on
spaces and punctuation, drop one-character tokens and stop words. -/
def tokenize (text : GoStr) : List GoStr :=
  (goFields (fun c => goIsSpace c || goIsPunct c) (text.map Char.toLower)).filter
    (fun w => decide (1 < w.length) && !tfidfStopWords.contains w)

/-- Document frequency of a word over the corpus (tfidf_embedder.go,
BuildVocabulary). -/
def docFreq (documents : List GoStr) (w : GoStr) : Nat :=
  documents.countP (fun d => (tokenize d).contains w)

/-- The vocabulary key set: every distinct corpus token, listed here in
first-occurrence order. The Go map enumerates these keys in an arbitrary
order, which the model passes around as an explicit permutation of this
list. -/
def tfidfVocab (documents : List GoStr) : List GoStr :=
  ((documents.map tokenize).flatten).dedup

section TFIDF

variable {K : Type} [LinearOrderedField K]

/-- Smoothed inverse document frequency (tfidf_embedder.go,
BuildVocabulary): log((N+1)/(df+1)) + 1, with the logarithm an explicit
parameter of the model. -/
def idf (log : K → K) (documents : List GoStr) (w : GoStr) : K :=
  log (((documents.length : K) + 1) / ((docFreq documents w : K) + 1)) + 1

/-- The raw TF-IDF weight a text assigns to a vocabulary word
(tfidf_embedder.go, Generate): term frequency count/totalTokens times the
word's IDF when the word occurs in the text, zero otherwise. -/
def tfidfWeight (log : K → K) (documents : List GoStr) (text : GoStr)
    (w : GoStr) : K :=
  if (tokenize text).count w = 0 then 0
  else (((tokenize text).count w : K) / ((tokenize text).length : K))
    * idf log documents w

/-- L2 normalization (tfidf_embedder.go, normalize): divide by the norm
when it is positive, otherwise return the vector unchanged. -/
def tfidfNormalize (sqrt : K → K) (v : List K) : List K :=
  if 0 < sqrt (sumSq v) then v.map (fun x => x / sqrt (sumSq v)) else v

/-- TF-IDF Generate after the vocabulary is built (tfidf_embedder.go):
the weight vector indexed by the vocabulary enumeration ord, normalized. -/
def tfidfGenerate (sqrt log : K → K) (documents : List GoStr)
    (ord : List GoStr) (text : GoStr) : List K :=
  tfidfNormalize sqrt (ord.map (tfidfWeight log documents text))

end TFIDF

/-- Underscores become spaces (memory_store.go, createSearchableText). -/
def underscoreToSpace (s : GoStr) : GoStr :=
  s.map (fun c => if c = '_' then ' ' else c)

/-- The declared parameter names of a tool input schema: the keys of its
properties object (memory_store.go, createSearchableText). The model
keeps map entries in association-list order. -/
def schemaParamNames (schema : Option JVal) : List GoStr :=
  match schema with
  | some (.obj fields) =>
    match fields.lookup (gs ("properties")) with
    | some (.obj props) => props.map (fun p => p.1)
    | _ => []
  | _ => []

/-- strings.Join with the period-space separator. -/
def joinDotSpace : List GoStr → GoStr
  | [] => []
  | [p] => p
  | p :: rest => p ++ gs (". ") ++ joinDotSpace rest

/-- createSearchableText (memory_store.go): the tool name with
underscores replaced by spaces, then the category and description when
non-empty, then the schema parameter names with underscores replaced by
spaces, joined by period-space. -/
def createSearchableText (tool : Tool) : GoStr :=
  joinDotSpace
    ([underscoreToSpace tool.name]
      ++ (if tool.category = [] then [] else [tool.category])
      ++ (if tool.description = [] then [] else [tool.description])
      ++ (schemaParamNames tool.inputSchema).map underscoreToSpace)

section Build

variable {K : Type} [LinearOrderedField K]

/-- The embedding table of BuildFromTools (memory_store.go): one entry per
tool whose embedding generation succeeds; a failing tool is skipped, not
fatal. -/
def buildEmbeddings (embedder : GoStr → Except GoStr (List K))
    (allTools : List Tool) : List (ToolEmbedding K) :=
  allTools.filterMap (fun tool =>
    match embedder (createSearchableText tool) with
    | .error _ => none
    | .ok e => some { tool := tool, embedding := e, score := 0 })

/-- BuildFromTools (memory_store.go) as a store constructor. -/
def BuildFromTools (embedder : GoStr → Except GoStr (List K))
    (allTools : List Tool) : InMemoryVectorStore K :=
  { embeddings := buildEmbeddings embedder allTools, embedder := embedder }

/-- The TF-IDF build pipeline (initializeVectorStore plus BuildFromTools):
the vocabulary is trained on the searchable texts of all tools, then the
same tools are embedded with it. The vocabulary enumeration order ord of
the Go map iteration is an explicit parameter. -/
def buildTFIDFStore (sqrt log : K → K) (allTools : List Tool)
    (ord : List GoStr) : InMemoryVectorStore K :=
  BuildFromTools
    (fun text => .ok (tfidfGenerate sqrt log
      (allTools.map createSearchableText) ord text))
    allTools

theorem zipWith_mul_map (f g : GoStr → K) (l : List GoStr) :
    List.zipWith (fun x y => x * y) (l.map f) (l.map g)
      = l.map (fun w => f w * g w) := by
  induction l with
  | nil => rfl
  | cons x xs ih => simp [ih]

theorem perm_map_sum (f : GoStr → K) {l1 l2 : List GoStr} (h : l1.Perm l2) :
    (l1.map f).sum = (l2.map f).sum :=
  (h.map f).sum_eq

/-- Cosine similarity between two vectors laid out along the same index
list is invariant under permuting that index list: all three accumulated
sums are sums over the index list. -/
theorem cosineSimilarity_map_perm (sqrt : K → K) (f g : GoStr → K)
    {l1 l2 : List GoStr} (h : l1.Perm l2) :
    cosineSimilarity sqrt (l1.map f) (l1.map g)
      = cosineSimilarity sqrt (l2.map f) (l2.map g) := by
  have hss : ∀ fn : GoStr → K, sumSq (l1.map fn) = sumSq (l2.map fn) := by
    intro fn
    unfold sumSq
    rw [List.map_map, List.map_map]
    exact perm_map_sum _ h
  have hdot : dotProduct (l1.map f) (l1.map g)
      = dotProduct (l2.map f) (l2.map g) := by
    unfold dotProduct
    rw [zipWith_mul_map, zipWith_mul_map]
    exact perm_map_sum _ h
  unfold cosineSimilarity
  simp only [List.length_map, hss, hdot, h.length_eq]

/-- A TF-IDF embedding is the weight function laid out along the
enumeration order, rescaled by a normalization constant that is invariant
under permuting the enumeration; two permuted enumerations therefore lay
out one common per-word function. -/
theorem tfidfGenerate_map (sqrt log : K → K) (documents : List GoStr)
    (text : GoStr) {ord1 ord2 : List GoStr} (h : ord1.Perm ord2) :
    ∃ g : GoStr → K,
      tfidfGenerate sqrt log documents ord1 text = ord1.map g ∧
      tfidfGenerate sqrt log documents ord2 text = ord2.map g := by
  have hss : sumSq (ord2.map (tfidfWeight log documents text))
      = sumSq (ord1.map (tfidfWeight log documents text)) := by
    unfold sumSq
    rw [List.map_map, List.map_map]
    exact perm_map_sum _ h.symm
  by_cases hpos :
    0 < sqrt (sumSq (ord1.map (tfidfWeight log documents text)))
  · refine ⟨fun x => tfidfWeight log documents text x
      / sqrt (sumSq (ord1.map (tfidfWeight log documents text))), ?_, ?_⟩
    · unfold tfidfGenerate tfidfNormalize
      rw [if_pos hpos, List.map_map]
      rfl
    · unfold tfidfGenerate tfidfNormalize
      rw [hss, if_pos hpos, List.map_map]
      rfl
  · refine ⟨tfidfWeight log documents text, ?_, ?_⟩
    · unfold tfidfGenerate tfidfNormalize
      rw [if_neg hpos]
    · unfold tfidfGenerate tfidfNormalize
      rw [hss, if_neg hpos]

theorem buildEmbeddings_ok (embed : GoStr → List K) (allTools : List Tool) :
    buildEmbeddings (fun t => .ok (embed t)) allTools
      = allTools.map (fun tool =>
          { tool := tool, embedding := embed (createSearchableText tool),
            score := 0 }) := by
  induction allTools with
  | nil => rfl
  | cons t ts ih => simp [buildEmbeddings, List.filterMap_cons] at ih ⊢; exact ih

omit [LinearOrderedField K] in
theorem map_map_tool (F : Tool → ToolEmbedding K)
    (hF : ∀ t, (F t).tool = t) (l : List Tool) :
    (l.map F).map (fun te => te.tool) = l := by
  induction l with
  | nil => rfl
  | cons x xs ih => simp [hF, ih]

omit [LinearOrderedField K] in
theorem take_map_tool (F : Tool → ToolEmbedding K)
    (hF : ∀ t, (F t).tool = t) (l : List Tool) : ∀ k : Nat,
    ((l.map F).take k).map (fun te => te.tool) = l.take k := by
  induction l with
  | nil => intro k; simp
  | cons x xs ih =>
    intro k
    cases k with
    | zero => simp
    | succ k => simp [hF, ih k]

/-- The scored entry a TF-IDF search produces for one tool: embedding laid
out along enumeration ord, score computed from enumeration scoreOrd.
Proof plumbing for the determinism theorem. -/
def tfidfScoredEntry (sqrt log : K → K) (docs : List GoStr)
    (ord scoreOrd : List GoStr) (query : GoStr) (t : Tool) : ToolEmbedding K :=
  { tool := t,
    embedding := tfidfGenerate sqrt log docs ord (createSearchableText t),
    score := cosineSimilarity sqrt
      (tfidfGenerate sqrt log docs scoreOrd query)
      (tfidfGenerate sqrt log docs scoreOrd (createSearchableText t)) }

/-- The tool-level comparison induced by TF-IDF scores; proof plumbing for
the determinism theorem. -/
def tfidfLess (sqrt log : K → K) (docs : List GoStr) (scoreOrd : List GoStr)
    (query : GoStr) (a b : Tool) : Bool :=
  decide (cosineSimilarity sqrt
      (tfidfGenerate sqrt log docs scoreOrd query)
      (tfidfGenerate sqrt log docs scoreOrd (createSearchableText b))
    < cosineSimilarity sqrt
      (tfidfGenerate sqrt log docs scoreOrd query)
      (tfidfGenerate sqrt log docs scoreOrd (createSearchableText a)))

end Build

/-- C9: building the vector index twice from the same tool set with the
same TF-IDF strategy yields the same ranking for the same query — the
build-then-search pipeline is deterministic given fixed inputs. The one
internal source of nondeterminism, the map iteration order behind the
vocabulary, is exposed as the enumeration orders ord1 and ord2 of the two
builds, and the returned tool lists coincide for every pair of orders. -/
theorem build_search_deterministic (K : Type) [LinearOrderedField K]
    (sqrt log : K → K) (sorter : SorterT) (hnat : SorterNatural sorter)
    (allTools : List Tool) (query : GoStr) (topK : Nat)
    (ord1 ord2 : List GoStr)
    (h1 : ord1.Perm (tfidfVocab (allTools.map createSearchableText)))
    (h2 : ord2.Perm (tfidfVocab (allTools.map createSearchableText))) :
    Search sqrt sorter (buildTFIDFStore sqrt log allTools ord1) query topK
      = Search sqrt sorter (buildTFIDFStore sqrt log allTools ord2) query topK := by
  have hp : ord1.Perm ord2 := h1.trans h2.symm
  clear h1 h2
  cases allTools with
  | nil => rfl
  | cons t0 rest =>
    set ts : List Tool := t0 :: rest with hts
    set docs : List GoStr := ts.map createSearchableText with hdocs
    have hsc : ∀ t : Tool,
        cosineSimilarity sqrt
          (tfidfGenerate sqrt log docs ord2 query)
          (tfidfGenerate sqrt log docs ord2 (createSearchableText t))
      = cosineSimilarity sqrt
          (tfidfGenerate sqrt log docs ord1 query)
          (tfidfGenerate sqrt log docs ord1 (createSearchableText t)) := by
      intro t
      obtain ⟨gq, hq1, hq2⟩ := tfidfGenerate_map sqrt log docs query hp
      obtain ⟨gt2, ht1, ht2⟩ :=
        tfidfGenerate_map sqrt log docs (createSearchableText t) hp
      rw [hq1, hq2, ht1, ht2]
      exact cosineSimilarity_map_perm sqrt gq gt2 hp.symm
    have hbuild : ∀ ord : List GoStr,
        (buildTFIDFStore sqrt log ts ord).embeddings
          = ts.map (fun t =>
              ({ tool := t,
                 embedding := tfidfGenerate sqrt log docs ord
                   (createSearchableText t),
                 score := 0 } : ToolEmbedding K)) := fun ord =>
      buildEmbeddings_ok (tfidfGenerate sqrt log docs ord) ts
    have hscored : ∀ ord : List GoStr,
        scoredList sqrt (buildTFIDFStore sqrt log ts ord)
          (tfidfGenerate sqrt log docs ord query)
        = ts.map (tfidfScoredEntry sqrt log docs ord ord query) := by
      intro ord
      unfold scoredList
      rw [hbuild ord, List.map_map]
      rfl
    have hswap : ts.map (tfidfScoredEntry sqrt log docs ord2 ord2 query)
        = ts.map (tfidfScoredEntry sqrt log docs ord2 ord1 query) := by
      apply List.map_congr_left
      intro t _
      unfold tfidfScoredEntry
      rw [hsc t]
    have e1 : Search sqrt sorter (buildTFIDFStore sqrt log ts ord1) query topK
        = .ok (((sorter (ToolEmbedding K) scoreLess (scoredList sqrt
            (buildTFIDFStore sqrt log ts ord1)
            (tfidfGenerate sqrt log docs ord1 query))).take topK).map
            (fun te => te.tool)) := rfl
    have e2 : Search sqrt sorter (buildTFIDFStore sqrt log ts ord2) query topK
        = .ok (((sorter (ToolEmbedding K) scoreLess (scoredList sqrt
            (buildTFIDFStore sqrt log ts ord2)
            (tfidfGenerate sqrt log docs ord2 query))).take topK).map
            (fun te => te.tool)) := rfl
    have hn1 := hnat Tool (ToolEmbedding K) (tfidfScoredEntry sqrt log docs ord1 ord1 query)
      (tfidfLess sqrt log docs ord1 query) scoreLess (fun a b => rfl) ts
    have hn2 := hnat Tool (ToolEmbedding K) (tfidfScoredEntry sqrt log docs ord2 ord1 query)
      (tfidfLess sqrt log docs ord1 query) scoreLess (fun a b => rfl) ts
    rw [e1, e2, hscored ord1, hscored ord2, hswap, hn1, hn2,
      take_map_tool (tfidfScoredEntry sqrt log docs ord1 ord1 query)
        (fun t => rfl) (sorter Tool (tfidfLess sqrt log docs ord1 query) ts) topK,
      take_map_tool (tfidfScoredEntry sqrt log docs ord2 ord1 query)
        (fun t => rfl) (sorter Tool (tfidfLess sqrt log docs ord1 query) ts) topK]

theorem build_search_deterministic_witness :
    Search (fun x : ℚ => x) stableSorter
        (buildTFIDFStore (fun x => x) (fun x => x) [wToolGood]
          (tfidfVocab ([wToolGood].map createSearchableText))) (gs ("demo")) 1
      = Search (fun x : ℚ => x) stableSorter
        (buildTFIDFStore (fun x => x) (fun x => x) [wToolGood]
          ((tfidfVocab ([wToolGood].map createSearchableText)).reverse))
        (gs ("demo")) 1 :=
  build_search_deterministic ℚ (fun x => x) (fun x => x) stableSorter
    stableSorter_natural [wToolGood] (gs ("demo")) 1 _ _ (List.Perm.refl _)
    (List.reverse_perm _)

section Rebuild

variable {K : Type} [LinearOrderedField K]

/-- The observable state of the vector index during a hot-swap rebuild:
the published embedding table — the reference any concurrent search
reads — and the private scratch table the rebuild computes aside. -/
structure RebuildState (K : Type) : Type where
  published : List (ToolEmbedding K)
  scratch : Option (List (ToolEmbedding K))

/-- The primitive steps of the hot-swap rebuild. -/
inductive RebuildStep : Type where
  | computeScratch : RebuildStep
  | publishSwap : RebuildStep

/-- Modelled from the spec: RebuildWithEmbedder is invoked on the index
(downloadAndUpgradeToGloVe) but its body is not among the provided
sources. Per the specification it performs a full buildFromTools with the
same tool set and the new strategy entirely off to the side, then
replaces the index table with a single atomic reference swap. So the
compute step writes only the private scratch and the swap step publishes
the completed table with one assignment; no step mutates the published
table in place. -/
def rebuildStepRun (newEmbedder : GoStr → Except GoStr (List K))
    (allTools : List Tool) :
    RebuildStep → RebuildState K → RebuildState K
  | .computeScratch, st =>
      { st with scratch := some (buildEmbeddings newEmbedder allTools) }
  | .publishSwap, st =>
      match st.scratch with
      | some table => { published := table, scratch := st.scratch }
      | none => st

/-- Modelled from the spec: the rebuild runs its two steps in order. -/
def rebuildProgram : List RebuildStep := [.computeScratch, .publishSwap]

/-- Running a sequence of rebuild steps from a state. -/
def runSteps (newEmbedder : GoStr → Except GoStr (List K))
    (allTools : List Tool) (steps : List RebuildStep) (st : RebuildState K) :
    RebuildState K :=
  steps.foldl (fun st step => rebuildStepRun newEmbedder allTools step st) st

end Rebuild

/-- C4: during a hot-swap rebuild, the published table visible after any
prefix of the rebuild steps — hence the table any concurrently running
search reads — is either the complete old table or the complete new
table built from the tools with the new strategy, never a partially
replaced mix; after the full rebuild it is exactly the new table. -/
theorem rebuild_atomic_swap (K : Type) [LinearOrderedField K]
    (newEmbedder : GoStr → Except GoStr (List K)) (allTools : List Tool)
    (oldTable : List (ToolEmbedding K)) :
    (∀ n : Nat,
      (runSteps newEmbedder allTools (rebuildProgram.take n)
          { published := oldTable, scratch := none }).published = oldTable ∨
      (runSteps newEmbedder allTools (rebuildProgram.take n)
          { published := oldTable, scratch := none }).published
        = buildEmbeddings newEmbedder allTools) ∧
    (runSteps newEmbedder allTools rebuildProgram
        { published := oldTable, scratch := none }).published
      = buildEmbeddings newEmbedder allTools := by
  constructor
  · intro n
    match n with
    | 0 => exact Or.inl rfl
    | 1 => exact Or.inl rfl
    | Nat.succ (Nat.succ m) =>
      refine Or.inr ?_
      simp [rebuildProgram, runSteps, rebuildStepRun, List.take_nil]
  · rfl

/-- Search-request input of the tool_search meta-tool (server.go,
ToolSearchInput). -/
structure ToolSearchInput : Type where
  query : GoStr
  category : GoStr
  detailLevel : GoStr
  offset : Int

/-- One search-result entry (types.go, ToolMetadata). -/
structure ToolMetadata : Type where
  name : GoStr
  category : GoStr
  description : GoStr
  parameters : Option (List (GoStr × JVal))

/-- The response payload assembled by handleToolSearch (server.go): the
counters, the echoed clamped offset and configured limit, the has-more
flag and the returned page. -/
structure ToolSearchPage : Type where
  totalCount : Nat
  returnedCount : Nat
  offset : Nat
  limit : Nat
  hasMore : Bool
  tools : List ToolMetadata

/-- The candidate list handleToolSearch paginates (server.go,
handleToolSearch): no vector store gives no candidates; otherwise a
semantic search for limit*3 results — an error yielding no candidates —
optionally filtered by exact category equality. -/
def toolSearchCandidates (K : Type) [LinearOrderedField K] (sqrt : K → K)
    (sorter : SorterT) (store : Option (InMemoryVectorStore K)) (limit : Nat)
    (query category : GoStr) : List Tool :=
  match store with
  | none => []
  | some s =>
    let found :=
      match Search sqrt sorter s query (limit * 3) with
      | .error _ => []
      | .ok ts => ts
    if category = [] then found
    else found.filter (fun t => decide (t.category = category))

/-- handleToolSearch (server.go): defaults the detail level, clamps a
negative offset to zero, collects the candidates, paginates them with the
configured limit, renders the page at the requested detail level and
reports counts, the clamped offset, the limit and the has-more flag. -/
def handleToolSearch (K : Type) [LinearOrderedField K] (sqrt : K → K)
    (sorter : SorterT) (store : Option (InMemoryVectorStore K))
    (searchResultLimit : Nat) (input : ToolSearchInput) : ToolSearchPage :=
  let detailLevel :=
    if input.detailLevel = [] then gs ("summary") else input.detailLevel
  let limit := searchResultLimit
  let offset : Nat := input.offset.toNat
  let foundTools :=
    toolSearchCandidates K sqrt sorter store limit input.query input.category
  let totalCount := foundTools.length
  let start := min offset totalCount
  let stop := min (start + limit) totalCount
  let paginated := (foundTools.drop start).take (stop - start)
  let toolMetadata := paginated.map (fun tool =>
    ({ name := tool.name
       category := tool.category
       description :=
         if detailLevel = gs ("names_only") then [] else tool.description
       parameters :=
         if detailLevel = gs ("detailed") ∨ detailLevel = gs ("full_schema") then
           match tool.inputSchema with
           | some (.obj fields) => some fields
           | _ => none
         else none } : ToolMetadata))
  { totalCount := totalCount, returnedCount := toolMetadata.length,
    offset := offset, limit := limit,
    hasMore := decide (stop < totalCount), tools := toolMetadata }

/-- C6: for every tool_search call, writing total for the size of the
post-filter candidate list and offset for the clamped offset echoed in
the response, the returned page length equals min(limit, total - offset)
with truncated natural subtraction — that is, min(limit, max(0,
total-offset)) — and the has_more flag equals
offset + returned_length < total. -/
theorem tool_search_pagination (K : Type) [LinearOrderedField K]
    (sqrt : K → K) (sorter : SorterT)
    (store : Option (InMemoryVectorStore K)) (limit : Nat)
    (input : ToolSearchInput) :
    (handleToolSearch K sqrt sorter store limit input).returnedCount
      = min limit
          ((handleToolSearch K sqrt sorter store limit input).totalCount
            - (handleToolSearch K sqrt sorter store limit input).offset) ∧
    (handleToolSearch K sqrt sorter store limit input).hasMore
      = decide
          ((handleToolSearch K sqrt sorter store limit input).offset
              + (handleToolSearch K sqrt sorter store limit input).returnedCount
            < (handleToolSearch K sqrt sorter store limit input).totalCount) := by
  constructor
  · simp only [handleToolSearch, List.length_map, List.length_take,
      List.length_drop]
    omega
  · simp only [handleToolSearch, List.length_map, List.length_take,
      List.length_drop]
    rw [decide_eq_decide]
    omega

/-- Search never returns more than topK tools: the result is a take of
the sorted table. -/
theorem search_length_le {K : Type} [LinearOrderedField K] (sqrt : K → K)
    (sorter : SorterT) (s : InMemoryVectorStore K) (query : GoStr)
    (topK : Nat) (ts : List Tool)
    (h : Search sqrt sorter s query topK = .ok ts) : ts.length ≤ topK := by
  unfold Search at h
  split at h
  · cases h
    simp
  · split at h
    · exact Except.noConfusion h
    · cases h
      rw [List.length_map, List.length_take]
      exact Nat.min_le_left _ _

/-- The candidate list is capped by limit times three: that is all the
index is ever asked for, and the category filter only shrinks it. -/
theorem toolSearchCandidates_length_le (K : Type) [LinearOrderedField K]
    (sqrt : K → K) (sorter : SorterT)
    (store : Option (InMemoryVectorStore K)) (limit : Nat)
    (query category : GoStr) :
    (toolSearchCandidates K sqrt sorter store limit query category).length
      ≤ limit * 3 := by
  unfold toolSearchCandidates
  match store with
  | none => simp
  | some s =>
    cases hs : Search sqrt sorter s query (limit * 3) with
    | error e =>
      simp only [hs]
      split
      · simp
      · simp
    | ok ts =>
      have hlen := search_length_le sqrt sorter s query (limit * 3) ts hs
      simp only [hs]
      split
      · exact hlen
      · exact le_trans (List.length_filter_le _ _) hlen

/-- C10: the reported total_count never exceeds three times the configured
limit, because the index is only ever queried for limit*3 candidates
before category filtering and pagination; consequently any offset of at
least 3*limit yields an empty page with has_more false, even when more
matching tools exist in the catalog. -/
theorem tool_search_candidate_cap (K : Type) [LinearOrderedField K]
    (sqrt : K → K) (sorter : SorterT)
    (store : Option (InMemoryVectorStore K)) (limit : Nat)
    (input : ToolSearchInput) :
    (handleToolSearch K sqrt sorter store limit input).totalCount
        ≤ 3 * limit ∧
    (3 * limit ≤ input.offset.toNat →
      (handleToolSearch K sqrt sorter store limit input).tools = [] ∧
      (handleToolSearch K sqrt sorter store limit input).hasMore = false) := by
  have hcap := toolSearchCandidates_length_le K sqrt sorter store limit
    input.query input.category
  constructor
  · simp only [handleToolSearch]
    omega
  · intro hoff
    constructor
    · simp only [handleToolSearch]
      rw [← List.length_eq_zero]
      simp only [List.length_map, List.length_take, List.length_drop]
      omega
    · simp only [handleToolSearch]
      rw [decide_eq_false_iff_not]
      omega

theorem tool_search_candidate_cap_witness :
    (handleToolSearch ℚ (fun x => x) stableSorter (some wTieStore) 1
        { query := gs ("q"), category := [], detailLevel := [],
          offset := (5 : Int) }).tools = [] ∧
    (handleToolSearch ℚ (fun x => x) stableSorter (some wTieStore) 1
        { query := gs ("q"), category := [], detailLevel := [],
          offset := (5 : Int) }).hasMore = false :=
  (tool_search_candidate_cap ℚ (fun x => x) stableSorter (some wTieStore) 1
    { query := gs ("q"), category := [], detailLevel := [],
      offset := (5 : Int) }).2 (by decide)

end OneMcp
